import Mathlib

/-!
Verification of the PrimeAggregator scan/decide/trigger/execute pipeline.

This file shallowly embeds the profit deciders, the tip and fee-conversion
arithmetic, the best-candidate selection, the atomic instruction-merging
builder, the Jito-bundle fallback branch, the bollinger execute tick and the
adaptive token-bucket rate governor, and proves the specification's claims
about them.

Modelling conventions:
* JavaScript `BigInt` values are embedded as `ℤ` (exact arithmetic; `BigInt`
  division truncates toward zero, which we render as `Int.tdiv`; where both
  operands are provably non-negative the embedding uses `/` = `Int.ediv`,
  which agrees with truncation there).
* JavaScript `number` configuration values (tips, rps, ppm statistics) are
  embedded as `ℤ` when the configuration schema makes them integers, and as
  `ℚ` for the fractional rate-governor and ppm statistics.
* Async calls to external services (the Rust decider subprocess, quote HTTP
  APIs, RPC) are embedded as explicit oracle arguments: `Option`/sum values
  describing the outcome of the external call.
-/

namespace PrimeAggregator

/-- Decision record returned by the deciders
(`Decision` in `src/bot/rustDecision.ts`, and the anonymous record returned by
`decidePathInTs` in `src/bot/scanner.ts`). -/
structure Decision where
  profitable : Bool
  profit : ℤ
  conservativeProfit : ℤ
  deriving Repr, DecidableEq

/-- Embeds `decidePathInTs` (src/src/bot/scanner.ts:166-187): the in-process
decider for triangular paths.  `profit = out - in - fee`,
`conservativeProfit = outMin - in - fee`, `profitable ⇔ conservativeProfit ≥ minProfit`. -/
def decidePathInTs (amountIn finalOut finalMinOut minProfit feeEstimateInA : ℤ) : Decision :=
  let profit := finalOut - amountIn - feeEstimateInA
  let conservativeProfit := finalMinOut - amountIn - feeEstimateInA
  { profitable := decide (conservativeProfit ≥ minProfit)
    profit := profit
    conservativeProfit := conservativeProfit }

/-- Embeds `decideInTs` (src/src/bot/rustDecision.ts:16-37): the in-process
loop decider used when the Rust engine is disabled or fails.  Note it reads
only `amountIn`, `quote2Out`, `quote2MinOut`, `minProfit` and the fee estimate. -/
def decideInTs (amountIn quote2Out quote2MinOut minProfit feeEstimateLamports : ℤ) : Decision :=
  let profit := quote2Out - amountIn - feeEstimateLamports
  let conservativeProfit := quote2MinOut - amountIn - feeEstimateLamports
  { profitable := decide (conservativeProfit ≥ minProfit)
    profit := profit
    conservativeProfit := conservativeProfit }

/-- Argument record of `decideWithOptionalRust` (src/src/bot/rustDecision.ts:88-98),
minus the `useRust`/`rustCalcPath` plumbing. -/
structure DecideParams where
  amountIn : ℤ
  quote1Out : ℤ
  quote1MinOut : ℤ
  quote2Out : ℤ
  quote2MinOut : ℤ
  minProfit : ℤ
  feeEstimateLamports : ℤ
  deriving Repr, DecidableEq

/-- Embeds `decideWithOptionalRust` (src/src/bot/rustDecision.ts:88-120).
The external Rust subprocess is abstracted as an oracle `rustResult`:
`some d` when `decideInRust` resolves with decision `d`, `none` when it
throws (spawn failure, stderr data, parse error).  When `useRust` is false,
or when the oracle fails, the function falls back to `decideInTs` on the
leg-2 fields only, exactly as the source does. -/
def decideWithOptionalRust (useRust : Bool) (rustResult : Option Decision)
    (p : DecideParams) : Decision :=
  if !useRust then
    decideInTs p.amountIn p.quote2Out p.quote2MinOut p.minProfit p.feeEstimateLamports
  else
    match rustResult with
    | some d => d
    | none => decideInTs p.amountIn p.quote2Out p.quote2MinOut p.minProfit p.feeEstimateLamports

/-! ### Executor gate (src/unnamed/part_007, `executeCandidate`) -/

/-- Run mode of the bot (`'dry-run' | 'live'`). -/
inductive Mode where
  | dryRun
  | live
  deriving Repr, DecidableEq, BEq

/-- The `ScanResult` record returned by `executeCandidate`. -/
structure ExecResult where
  kind : String
  reason : Option String
  deriving Repr, DecidableEq

/-- Embeds the profitability gate at the top of `executeCandidate`
(src/unnamed/part_007:543-547):
`shouldBuild = best.decision.profitable || (mode === 'dry-run' && dryRunBuild)`;
when `shouldBuild` is false the function logs and returns
`{ kind: 'skipped', reason: 'not-profitable' }` before any transaction is
built or sent.  `none` means the gate passed and execution proceeds to the
build/send code below the gate. -/
def executeCandidateGate (profitable : Bool) (mode : Mode) (dryRunBuild : Bool) :
    Option ExecResult :=
  let shouldBuild := profitable || ((mode == Mode.dryRun) && dryRunBuild)
  if !shouldBuild then some { kind := "skipped", reason := some "not-profitable" }
  else none

end PrimeAggregator

namespace PrimeAggregator

/-- C1: for all non-negative big integers, the triangular in-process decider
returns `profit = out - in - fee`, `conservativeProfit = minOut - in - fee`
and `profitable ⇔ conservativeProfit ≥ minProfit`; the loop decider used when
the external engine is disabled, and the fallback taken when it fails, return
the same values on the final-leg quote. -/
theorem decider_exact_profit_formulas
    (amountIn outN minOutN feeInA minProfitInA : ℤ)
    (_h1 : 0 ≤ amountIn) (_h2 : 0 ≤ outN) (_h3 : 0 ≤ minOutN)
    (_h4 : 0 ≤ feeInA) (_h5 : 0 ≤ minProfitInA) :
    (∀ d : Decision,
        d = decidePathInTs amountIn outN minOutN minProfitInA feeInA →
        d.profit = outN - amountIn - feeInA ∧
        d.conservativeProfit = minOutN - amountIn - feeInA ∧
        (d.profitable = true ↔ minOutN - amountIn - feeInA ≥ minProfitInA)) ∧
    (∀ p : DecideParams,
        p.amountIn = amountIn → p.quote2Out = outN → p.quote2MinOut = minOutN →
        p.minProfit = minProfitInA → p.feeEstimateLamports = feeInA →
        ∀ rustResult : Option Decision,
          decideWithOptionalRust false rustResult p =
            decidePathInTs amountIn outN minOutN minProfitInA feeInA ∧
          decideWithOptionalRust true none p =
            decidePathInTs amountIn outN minOutN minProfitInA feeInA) := by
  constructor
  · intro d hd
    subst hd
    refine ⟨rfl, rfl, ?_⟩
    simp [decidePathInTs]
  · intro p ha hb hc hm hf rustResult
    constructor
    · simp [decideWithOptionalRust, decideInTs, decidePathInTs, ha, hb, hc, hm, hf]
    · simp [decideWithOptionalRust, decideInTs, decidePathInTs, ha, hb, hc, hm, hf]

/-- Witness for `decider_exact_profit_formulas` at
`in = 1_000_000`, `out = 1_010_000`, `minOut = 1_005_000`, `fee = 3_000`,
`minProfit = 1_000`: `conservativeProfit = 2_000 ≥ 1_000`, profitable. -/
theorem decider_exact_profit_formulas_witness :
    (decidePathInTs 1000000 1010000 1005000 1000 3000).profit = 7000 ∧
    (decidePathInTs 1000000 1010000 1005000 1000 3000).conservativeProfit = 2000 ∧
    (decidePathInTs 1000000 1010000 1005000 1000 3000).profitable = true ∧
    decideWithOptionalRust true none
        ⟨1000000, 999, 998, 1010000, 1005000, 1000, 3000⟩ =
      decidePathInTs 1000000 1010000 1005000 1000 3000 := by
  have h := decider_exact_profit_formulas 1000000 1010000 1005000 3000 1000
    (by decide) (by decide) (by decide) (by decide) (by decide)
  have h1 := (h.1 (decidePathInTs 1000000 1010000 1005000 1000 3000)) rfl
  have h2 := h.2 ⟨1000000, 999, 998, 1010000, 1005000, 1000, 3000⟩
    rfl rfl rfl rfl rfl none
  refine ⟨by decide, by decide, ?_, h2.2⟩
  exact h1.2.2.mpr (by decide)

/-- C10: whenever the Rust engine is disabled, or whenever it fails, the
decision returned by `decideWithOptionalRust` is independent of the leg-1
quote fields: two parameter records that agree on everything except
`quote1Out`/`quote1MinOut` yield identical decisions. -/
theorem decideWithOptionalRust_ignores_quote1
    (useRust : Bool) (rustResult : Option Decision) (p q : DecideParams)
    (hdisabled : useRust = false ∨ rustResult = none)
    (h1 : p.amountIn = q.amountIn) (h2 : p.quote2Out = q.quote2Out)
    (h3 : p.quote2MinOut = q.quote2MinOut) (h4 : p.minProfit = q.minProfit)
    (h5 : p.feeEstimateLamports = q.feeEstimateLamports) :
    decideWithOptionalRust useRust rustResult p =
      decideWithOptionalRust useRust rustResult q := by
  rcases hdisabled with h | h
  · subst h
    simp [decideWithOptionalRust, h1, h2, h3, h4, h5]
  · subst h
    cases useRust <;> simp [decideWithOptionalRust, h1, h2, h3, h4, h5]

/-- Witness for `decideWithOptionalRust_ignores_quote1`: a failed Rust call on
two records that differ only in the leg-1 quote yields the same decision. -/
theorem decideWithOptionalRust_ignores_quote1_witness :
    decideWithOptionalRust true none ⟨5, 100, 90, 7, 6, 0, 1⟩ =
      decideWithOptionalRust true none ⟨5, 33, 22, 7, 6, 0, 1⟩ :=
  decideWithOptionalRust_ignores_quote1 true none
    ⟨5, 100, 90, 7, 6, 0, 1⟩ ⟨5, 33, 22, 7, 6, 0, 1⟩
    (Or.inr rfl) rfl rfl rfl rfl rfl

/-- C2: when the best candidate's decision is not profitable, and the mode is
live or the dry-run build flag is off, `executeCandidate` takes the early
return: it reports `{ kind: 'skipped', reason: 'not-profitable' }` and never
reaches the build/send code (the gate result is `some`, not `none`). -/
theorem executeCandidate_skips_unprofitable
    (mode : Mode) (dryRunBuild : Bool)
    (hmode : mode = Mode.live ∨ dryRunBuild = false) :
    executeCandidateGate false mode dryRunBuild =
      some { kind := "skipped", reason := some "not-profitable" } := by
  rcases hmode with h | h
  · subst h; rfl
  · subst h; cases mode <;> rfl

/-- Witness for `executeCandidate_skips_unprofitable` in live mode. -/
theorem executeCandidate_skips_unprofitable_witness :
    executeCandidateGate false Mode.live true =
      some { kind := "skipped", reason := some "not-profitable" } :=
  executeCandidate_skips_unprofitable Mode.live true (Or.inl rfl)

end PrimeAggregator

namespace PrimeAggregator

/-! ### Jito tip computation (src/src/bot/scanner.ts:134-164) -/

/-- Tip mode (`'fixed' | 'dynamic'`). -/
inductive TipMode where
  | fixed
  | dynamic
  deriving Repr, DecidableEq

/-- Embeds `clampNumber` (src/src/bot/scanner.ts:130-132):
`Math.max(min, Math.min(max, value))`. -/
def clampNumber (value lo hi : ℤ) : ℤ :=
  max lo (min hi value)

/-- Embeds `computeJitoTipLamports` (src/src/bot/scanner.ts:134-164).
All tip configuration values are integers (`parseIntOr` in the env loader),
so the source's `Math.floor` calls are identities and the `BigInt`/`Number`
round trips are exact; the `Number.isFinite` guard cannot fail in the exact
model and is not represented.  `aMintIsNative` stands for
`params.pair.aMint === SOL_MINT`. -/
def computeJitoTipLamports (jitoEnabled : Bool) (jitoTipMode : TipMode)
    (fixedTipLamports minTipLamports maxTipLamports tipBps : ℤ)
    (aMintIsNative : Bool) (amountA finalMinOut : ℤ) : ℤ :=
  if !jitoEnabled then 0
  else if fixedTipLamports ≤ 0 ∧ jitoTipMode = TipMode.fixed then 0
  else if jitoTipMode = TipMode.fixed then max 0 fixedTipLamports
  else if !aMintIsNative then max 0 fixedTipLamports
  else
    let gross := finalMinOut - amountA
    if gross ≤ 0 then 0
    else
      let raw := gross * tipBps / 10000
      let maxAllowed := max 0 maxTipLamports
      let minAllowed := max 0 minTipLamports
      let clamped :=
        if raw < minAllowed then minAllowed
        else if raw > maxAllowed then maxAllowed
        else raw
      clampNumber clamped 0 (max 0 maxTipLamports)

theorem clamp_chain_eq (raw lo hi : ℤ) (h0 : 0 ≤ lo) (hlohi : lo ≤ hi) (hraw : 0 ≤ raw) :
    clampNumber
        (if raw < max 0 lo then max 0 lo
         else if raw > max 0 hi then max 0 hi
         else raw)
        0 (max 0 hi) =
      max lo (min hi raw) := by
  have hlo : max 0 lo = lo := max_eq_right h0
  have hhi : max 0 hi = hi := max_eq_right (le_trans h0 hlohi)
  rw [hlo, hhi]
  unfold clampNumber
  rcases lt_or_le raw lo with h1 | h1
  · rw [if_pos h1, min_eq_right hlohi, min_eq_right (le_of_lt (lt_of_lt_of_le h1 hlohi)),
      max_eq_right h0, max_eq_left (le_of_lt h1)]
  · rw [if_neg (not_lt.mpr h1)]
    rcases lt_or_le hi raw with h2 | h2
    · rw [if_pos h2, min_self, max_eq_right (le_trans h0 hlohi),
        min_eq_left (le_of_lt h2), max_eq_right hlohi]
    · rw [if_neg (not_lt.mpr h2), min_eq_right h2, max_eq_right hraw, max_eq_right h1]

/-- C3: with the tip enabled and the tip mode dynamic: on a native-SOL pair
the tip is `0` when `finalMinOut ≤ amountA` and otherwise equals
`raw = (finalMinOut - amountA) * tipBps / 10_000` clamped to
`[minTip, maxTip]`; on a non-native pair the dynamic mode falls back to the
fixed tip `max(0, tipLamports)`. -/
theorem computeJitoTipLamports_dynamic_spec
    (fixedTipLamports minTipLamports maxTipLamports tipBps amountA finalMinOut : ℤ)
    (hmin : 0 ≤ minTipLamports) (hminmax : minTipLamports ≤ maxTipLamports)
    (hbps : 0 ≤ tipBps) :
    (finalMinOut ≤ amountA →
      computeJitoTipLamports true TipMode.dynamic fixedTipLamports minTipLamports
        maxTipLamports tipBps true amountA finalMinOut = 0) ∧
    (amountA < finalMinOut →
      computeJitoTipLamports true TipMode.dynamic fixedTipLamports minTipLamports
        maxTipLamports tipBps true amountA finalMinOut =
        max minTipLamports
          (min maxTipLamports ((finalMinOut - amountA) * tipBps / 10000))) ∧
    computeJitoTipLamports true TipMode.dynamic fixedTipLamports minTipLamports
        maxTipLamports tipBps false amountA finalMinOut = max 0 fixedTipLamports := by
  refine ⟨?_, ?_, ?_⟩
  · intro h
    unfold computeJitoTipLamports
    rw [if_neg (by decide), if_neg (by rintro ⟨-, hc⟩; exact absurd hc (by decide)),
      if_neg (by decide), if_neg (by decide), if_pos (show finalMinOut - amountA ≤ 0 by omega)]
  · intro h
    unfold computeJitoTipLamports
    rw [if_neg (by decide), if_neg (by rintro ⟨-, hc⟩; exact absurd hc (by decide)),
      if_neg (by decide), if_neg (by decide), if_neg (show ¬finalMinOut - amountA ≤ 0 by omega)]
    exact clamp_chain_eq _ _ _ hmin hminmax
      (Int.ediv_nonneg (mul_nonneg (by omega) hbps) (by norm_num))
  · unfold computeJitoTipLamports
    rw [if_neg (by decide), if_neg (by rintro ⟨-, hc⟩; exact absurd hc (by decide)),
      if_neg (by decide), if_pos (by decide)]

/-- Witness for `computeJitoTipLamports_dynamic_spec` at
`minTip = 5_000`, `maxTip = 50_000`, `tipBps = 2_000`, `amountA = 1_000_000`,
`finalMinOut = 1_100_000`: `raw = 100_000 · 2_000 / 10_000 = 20_000`, inside
the clamp band. -/
theorem computeJitoTipLamports_dynamic_spec_witness :
    computeJitoTipLamports true TipMode.dynamic 10000 5000 50000 2000 true
        1000000 1100000 = 20000 ∧
    computeJitoTipLamports true TipMode.dynamic 10000 5000 50000 2000 true
        1100000 1000000 = 0 ∧
    computeJitoTipLamports true TipMode.dynamic 10000 5000 50000 2000 false
        1000000 1100000 = 10000 := by
  have h := computeJitoTipLamports_dynamic_spec 10000 5000 50000 2000 1000000 1100000
    (by decide) (by decide) (by decide)
  have h' := computeJitoTipLamports_dynamic_spec 10000 5000 50000 2000 1100000 1000000
    (by decide) (by decide) (by decide)
  refine ⟨?_, ?_, ?_⟩
  · rw [h.2.1 (by decide)]; decide
  · exact h'.1 (by decide)
  · rw [h.2.2]; decide

/-! ### Fee conversion into input-token units (src/src/bot/scanner.ts:192-241) -/

/-- Embeds `ceilDiv` (src/src/bot/scanner.ts:192-196).  The source throws on
`d ≤ 0`; that case is embedded as `none`. -/
def ceilDiv (n d : ℤ) : Option ℤ :=
  if d ≤ 0 then none
  else if n ≤ 0 then some 0
  else some ((n + d - 1) / d)

def oneSolLamports : ℤ := 1000000000

/-- Embeds the arithmetic core of `convertFeeLamportsToAAtomic`
(src/src/bot/scanner.ts:198-241).  The regex guard, promise cache and HTTP
quote are stripped: `feeLamports` is the already-parsed non-negative fee (the
`/^\d+$/` guard returns `'0'` for anything else, covered by `feeLamports = 0`
here), and `outPerSol` is `q.outAmount` of the reference quote of one SOL
(`1e9` lamports) into `aMint` returned by the quote oracle. -/
def convertFeeLamportsToAAtomic (aMintIsNative : Bool) (feeLamports outPerSol : ℤ) :
    Option ℤ :=
  if feeLamports = 0 then some 0
  else if aMintIsNative then some feeLamports
  else ceilDiv (feeLamports * outPerSol) oneSolLamports

/-- C4: for a positive `feeLamports`, the conversion returns `feeLamports`
itself when `aMint` is native, and otherwise returns the unique `q` with
`1e9·(q-1) < feeLamports·outPerSol ≤ 1e9·q`, i.e. the ceiling
`⌈feeLamports·outPerSol / 1e9⌉`, so the cost in A is rounded upward. -/
theorem convertFeeLamportsToAAtomic_spec
    (feeLamports outPerSol : ℤ) (hfee : 0 < feeLamports) (hout : 0 ≤ outPerSol) :
    convertFeeLamportsToAAtomic true feeLamports outPerSol = some feeLamports ∧
    ∃ q : ℤ, convertFeeLamportsToAAtomic false feeLamports outPerSol = some q ∧
      0 ≤ q ∧
      feeLamports * outPerSol ≤ oneSolLamports * q ∧
      oneSolLamports * (q - 1) < feeLamports * outPerSol := by
  constructor
  · unfold convertFeeLamportsToAAtomic
    rw [if_neg (by omega), if_pos rfl]
  · unfold convertFeeLamportsToAAtomic ceilDiv oneSolLamports
    rw [if_neg (by omega)]
    simp only [Bool.false_eq_true, if_false]
    rw [if_neg (by norm_num)]
    set n : ℤ := feeLamports * outPerSol with hn
    have hn0 : 0 ≤ n := mul_nonneg (le_of_lt hfee) hout
    rcases le_or_lt n 0 with h0 | h0
    · rw [if_pos h0]
      exact ⟨0, rfl, le_rfl, by omega, by omega⟩
    · rw [if_neg (not_le.mpr h0)]
      refine ⟨(n + 1000000000 - 1) / 1000000000, rfl, ?_, ?_, ?_⟩
      · exact Int.ediv_nonneg (by omega) (by norm_num)
      · have := Int.ediv_add_emod (n + 1000000000 - 1) 1000000000
        have hm1 := Int.emod_nonneg (n + 1000000000 - 1) (show (1000000000:ℤ) ≠ 0 by norm_num)
        have hm2 := Int.emod_lt_of_pos (n + 1000000000 - 1) (show (0:ℤ) < 1000000000 by norm_num)
        omega
      · have := Int.ediv_add_emod (n + 1000000000 - 1) 1000000000
        have hm1 := Int.emod_nonneg (n + 1000000000 - 1) (show (1000000000:ℤ) ≠ 0 by norm_num)
        have hm2 := Int.emod_lt_of_pos (n + 1000000000 - 1) (show (0:ℤ) < 1000000000 by norm_num)
        omega

/-- Witness for `convertFeeLamportsToAAtomic_spec` at `feeLamports = 15_000`
and `outPerSol = 150_000_000_000` (150 A-units per lamport-SOL):
`feeInA = ceil(15_000 · 150e9 / 1e9) = 2_250_000`. -/
theorem convertFeeLamportsToAAtomic_spec_witness :
    convertFeeLamportsToAAtomic true 15000 150000000000 = some 15000 ∧
    convertFeeLamportsToAAtomic false 15000 150000000000 = some 2250000 := by
  have h := convertFeeLamportsToAAtomic_spec 15000 150000000000 (by decide) (by decide)
  refine ⟨h.1, ?_⟩
  obtain ⟨q, hq, _, h1, h2⟩ := h.2
  rw [hq]
  have : q = 2250000 := by
    unfold oneSolLamports at h1 h2
    omega
  rw [this]

end PrimeAggregator

namespace PrimeAggregator

/-! ### Best-candidate selection (src/src/bot/scanner.ts:116-128) -/

/-- A scan candidate, reduced to what `pickBestCandidate` reads:
`decision.conservativeProfit` (a big integer).  `payload` abstracts the rest
of the record (kind, quotes, fee fields, tip). -/
structure Candidate (α : Type) where
  payload : α
  conservativeProfit : ℤ
  deriving Repr, DecidableEq

/-- Loop body of `pickBestCandidate`: the running `best` is replaced exactly
when the current candidate's conservative profit is strictly greater. -/
def pickBestAux {α : Type} (best : Candidate α) : List (Candidate α) → Candidate α
  | [] => best
  | c :: rest =>
      pickBestAux (if best.conservativeProfit < c.conservativeProfit then c else best) rest

/-- Embeds `pickBestCandidate` (src/src/bot/scanner.ts:116-128): `undefined`
for the empty list, otherwise the fold starting at the first candidate. -/
def pickBestCandidate {α : Type} : List (Candidate α) → Option (Candidate α)
  | [] => none
  | c :: rest => some (pickBestAux c rest)

theorem pickBestAux_spec {α : Type} (l : List (Candidate α)) :
    ∀ best : Candidate α,
      (∀ c ∈ l, c.conservativeProfit ≤ (pickBestAux best l).conservativeProfit) ∧
      best.conservativeProfit ≤ (pickBestAux best l).conservativeProfit ∧
      (pickBestAux best l = best ∨
        ∃ pre post, l = pre ++ pickBestAux best l :: post ∧
          best.conservativeProfit < (pickBestAux best l).conservativeProfit ∧
          ∀ c ∈ pre, c.conservativeProfit < (pickBestAux best l).conservativeProfit) := by
  induction l with
  | nil => intro best; exact ⟨fun c hc => absurd hc (List.not_mem_nil c), le_rfl, Or.inl rfl⟩
  | cons c rest ih =>
    intro best
    rcases lt_or_le best.conservativeProfit c.conservativeProfit with hlt | hle
    · have hstep : pickBestAux best (c :: rest) = pickBestAux c rest := by
        simp only [pickBestAux]
        rw [if_pos hlt]
      obtain ⟨ihAll, ihBest, ihCases⟩ := ih c
      rw [hstep]
      refine ⟨?_, le_of_lt (lt_of_lt_of_le hlt ihBest), ?_⟩
      · intro x hx
        rcases List.mem_cons.mp hx with h | h
        · subst h; exact ihBest
        · exact ihAll x h
      · rcases ihCases with heq | ⟨pre, post, hdec, hgt, hpre⟩
        · refine Or.inr ⟨[], rest, ?_, ?_, ?_⟩
          · rw [heq]; rfl
          · rw [heq]; exact hlt
          · intro x hx; exact absurd hx (List.not_mem_nil x)
        · refine Or.inr ⟨c :: pre, post, ?_, lt_trans hlt hgt, ?_⟩
          · rw [List.cons_append]
            exact congrArg (List.cons c) hdec
          · intro x hx
            rcases List.mem_cons.mp hx with h | h
            · subst h; exact hgt
            · exact hpre x h
    · have hstep : pickBestAux best (c :: rest) = pickBestAux best rest := by
        simp only [pickBestAux]
        rw [if_neg (not_lt.mpr hle)]
      obtain ⟨ihAll, ihBest, ihCases⟩ := ih best
      rw [hstep]
      refine ⟨?_, ihBest, ?_⟩
      · intro x hx
        rcases List.mem_cons.mp hx with h | h
        · subst h; exact le_trans hle ihBest
        · exact ihAll x h
      · rcases ihCases with heq | ⟨pre, post, hdec, hgt, hpre⟩
        · exact Or.inl heq
        · refine Or.inr ⟨c :: pre, post, ?_, hgt, ?_⟩
          · rw [List.cons_append]
            exact congrArg (List.cons c) hdec
          · intro x hx
            rcases List.mem_cons.mp hx with h | h
            · subst h; exact lt_of_le_of_lt hle hgt
            · exact hpre x h

/-- C8: the scanner's best is the candidate with the greatest
`conservativeProfit`, ties broken by scan order (every candidate strictly
before the selected one has strictly smaller conservative profit), and the
empty candidate list yields no best. -/
theorem pickBestCandidate_greatest_first {α : Type} (cs : List (Candidate α)) :
    (cs = [] → pickBestCandidate cs = none) ∧
    (cs ≠ [] →
      ∃ b, pickBestCandidate cs = some b ∧ b ∈ cs ∧
        (∀ c ∈ cs, c.conservativeProfit ≤ b.conservativeProfit) ∧
        ∃ pre post, cs = pre ++ b :: post ∧
          ∀ c ∈ pre, c.conservativeProfit < b.conservativeProfit) := by
  refine ⟨fun h => by rw [h]; rfl, fun hne => ?_⟩
  match cs with
  | [] => exact absurd rfl hne
  | c :: rest =>
    obtain ⟨hAll, hBest, hCases⟩ := pickBestAux_spec rest c
    have hsplit : ∃ pre post, c :: rest = pre ++ pickBestAux c rest :: post ∧
        ∀ x ∈ pre, x.conservativeProfit < (pickBestAux c rest).conservativeProfit := by
      rcases hCases with heq | ⟨pre, post, hdec, hgt, hpre⟩
      · refine ⟨[], rest, ?_, fun x hx => absurd hx (List.not_mem_nil x)⟩
        rw [heq]; rfl
      · refine ⟨c :: pre, post, ?_, ?_⟩
        · rw [List.cons_append]
          exact congrArg (List.cons c) hdec
        · intro x hx
          rcases List.mem_cons.mp hx with h | h
          · subst h; exact hgt
          · exact hpre x h
    obtain ⟨pre, post, hs, hp⟩ := hsplit
    refine ⟨pickBestAux c rest, rfl, ?_, ?_, pre, post, hs, hp⟩
    · rw [hs]
      exact List.mem_append_right pre (List.mem_cons_self _ _)
    · intro x hx
      rcases List.mem_cons.mp hx with h | h
      · subst h; exact hBest
      · exact hAll x h

/-- Witness for `pickBestCandidate_greatest_first` on the scan
`[profit 5, profit 9, profit 9, profit 2]`: the first `9` (scan position 1)
is selected. -/
theorem pickBestCandidate_greatest_first_witness :
    ∃ b, pickBestCandidate
        [Candidate.mk 0 5, Candidate.mk 1 9, Candidate.mk 2 9, Candidate.mk (3 : ℕ) 2] =
        some b ∧
      b ∈ [Candidate.mk 0 5, Candidate.mk 1 9, Candidate.mk 2 9, Candidate.mk (3 : ℕ) 2] ∧
      (∀ c ∈ [Candidate.mk 0 5, Candidate.mk 1 9, Candidate.mk 2 9, Candidate.mk (3 : ℕ) 2],
        c.conservativeProfit ≤ b.conservativeProfit) ∧
      ∃ pre post,
        [Candidate.mk 0 5, Candidate.mk 1 9, Candidate.mk 2 9, Candidate.mk (3 : ℕ) 2] =
          pre ++ b :: post ∧
        ∀ c ∈ pre, c.conservativeProfit < b.conservativeProfit :=
  (pickBestCandidate_greatest_first
    [Candidate.mk 0 5, Candidate.mk 1 9, Candidate.mk 2 9, Candidate.mk (3 : ℕ) 2]).2
    (by decide)

/-! ### Jito bundle fallback (src/unnamed/part_007:956-1025) -/

/-- What `sendBundleViaJito` handed back, as read by the fallback condition:
`rejected`/`dropped` status flags on the returned result. -/
structure BundleResult where
  rejected : Bool
  dropped : Bool
  deriving Repr, DecidableEq

/-- Outcome of the bundle attempt in the live atomic Jito path:
the call threw (`jitoError !== undefined`), resolved without a result
(`result === undefined`), or resolved with a result. -/
inductive JitoAttempt where
  | threw
  | noResult
  | result (r : BundleResult)
  deriving Repr, DecidableEq

/-- Embeds `shouldFallback` (src/unnamed/part_007:987-990):
`jitoFallbackRpc && jitoWaitMs > 0 && (error || result === undefined ||
result.rejected || result.dropped)`. -/
def shouldFallbackRpc (jitoFallbackRpc : Bool) (jitoWaitMs : ℤ) (attempt : JitoAttempt) : Bool :=
  jitoFallbackRpc && decide (jitoWaitMs > 0) &&
    (match attempt with
     | .threw => true
     | .noResult => true
     | .result r => r.rejected || r.dropped)

/-- The two continuations after the bundle attempt
(src/unnamed/part_007:992-1024): rebuild without the tip and send via RPC
reporting `fallbackRpc: true`, or confirm the originally signed signature. -/
inductive JitoContinuation where
  | fallbackRpc
  | confirmOriginal
  deriving Repr, DecidableEq

/-- Embeds the branch on `shouldFallback` (src/unnamed/part_007:992-1024). -/
def jitoAfterBundle (jitoFallbackRpc : Bool) (jitoWaitMs : ℤ) (attempt : JitoAttempt) :
    JitoContinuation :=
  if shouldFallbackRpc jitoFallbackRpc jitoWaitMs attempt then JitoContinuation.fallbackRpc
  else JitoContinuation.confirmOriginal

theorem shouldFallbackRpc_eq_true_iff (f : Bool) (w : ℤ) (a : JitoAttempt) :
    shouldFallbackRpc f w a = true ↔
      f = true ∧ 0 < w ∧
        (a = JitoAttempt.threw ∨ a = JitoAttempt.noResult ∨
          ∃ r, a = JitoAttempt.result r ∧ (r.rejected = true ∨ r.dropped = true)) := by
  cases a with
  | threw => cases f <;> by_cases hw : 0 < w <;> simp_all [shouldFallbackRpc]
  | noResult => cases f <;> by_cases hw : 0 < w <;> simp_all [shouldFallbackRpc]
  | result r =>
    obtain ⟨rej, drop⟩ := r
    cases f <;> cases rej <;> cases drop <;> by_cases hw : 0 < w <;>
      simp_all [shouldFallbackRpc]

/-- C6: the RPC fallback is taken iff the fallback flag is on, `waitMs > 0`,
and the bundle attempt threw, returned no result, or returned a result marked
rejected or dropped; in every other case the original signature is confirmed. -/
theorem jitoAfterBundle_fallback_iff (jitoFallbackRpc : Bool) (jitoWaitMs : ℤ)
    (attempt : JitoAttempt) :
    (jitoAfterBundle jitoFallbackRpc jitoWaitMs attempt = JitoContinuation.fallbackRpc ↔
      jitoFallbackRpc = true ∧ 0 < jitoWaitMs ∧
        (attempt = JitoAttempt.threw ∨ attempt = JitoAttempt.noResult ∨
          ∃ r, attempt = JitoAttempt.result r ∧ (r.rejected = true ∨ r.dropped = true))) ∧
    (jitoAfterBundle jitoFallbackRpc jitoWaitMs attempt = JitoContinuation.confirmOriginal ↔
      ¬(jitoFallbackRpc = true ∧ 0 < jitoWaitMs ∧
        (attempt = JitoAttempt.threw ∨ attempt = JitoAttempt.noResult ∨
          ∃ r, attempt = JitoAttempt.result r ∧ (r.rejected = true ∨ r.dropped = true)))) := by
  have hiff := shouldFallbackRpc_eq_true_iff jitoFallbackRpc jitoWaitMs attempt
  by_cases hb : shouldFallbackRpc jitoFallbackRpc jitoWaitMs attempt = true
  · rw [jitoAfterBundle, if_pos hb]
    refine ⟨⟨fun _ => hiff.mp hb, fun _ => rfl⟩, ?_, ?_⟩
    · intro h; exact JitoContinuation.noConfusion h
    · intro hn; exact absurd (hiff.mp hb) hn
  · rw [jitoAfterBundle, if_neg hb]
    refine ⟨⟨?_, fun hr => absurd (hiff.mpr hr) hb⟩, fun _ hr => hb (hiff.mpr hr), fun _ => rfl⟩
    intro h; exact JitoContinuation.noConfusion h

end PrimeAggregator

namespace PrimeAggregator

/-! ### Adaptive token-bucket rate governor (src/unnamed/part_013:74-134) -/

/-- State of `AdaptiveTokenBucketRateLimiter` (src/unnamed/part_013:74-112),
restricted to the fields `note429`/`noteSuccess` read or write (the token
bucket itself is untouched by them).  Rates and clock readings are JS
numbers, embedded as `ℚ`; `Date.now()` is passed explicitly as `now`.
The constructor clamps `minRps ≥ 0.05`, `baseRps ≥ 0.1`,
`recoveryStepRps ≥ 0.05` and starts `currentRps = baseRps`, which justifies
the positivity hypotheses below. -/
structure RateLimiterState where
  baseRps : ℚ
  minRps : ℚ
  currentRps : ℚ
  penaltyMs : ℚ
  recoveryEveryMs : ℚ
  recoveryStepRps : ℚ
  penaltyUntilMs : ℚ
  lastRecoveryAtMs : ℚ
  total429 : ℕ
  last429AtMs : ℚ
  deriving Repr, DecidableEq

/-- Embeds `note429` (src/unnamed/part_013:119-125): halve the rate (with a
`minRps` floor), open the penalty window, reset the recovery clock. -/
def note429 (now : ℚ) (s : RateLimiterState) : RateLimiterState :=
  { s with
    total429 := s.total429 + 1
    last429AtMs := now
    currentRps := max s.minRps (s.currentRps * (1/2))
    penaltyUntilMs := max s.penaltyUntilMs (now + s.penaltyMs)
    lastRecoveryAtMs := now }

/-- Embeds `noteSuccess` (src/unnamed/part_013:127-134): no-op during the
penalty window, at `baseRps`, or within `recoveryEveryMs` of the last
recovery; otherwise step the rate up by `recoveryStepRps`, capped at
`baseRps`. -/
def noteSuccess (now : ℚ) (s : RateLimiterState) : RateLimiterState :=
  if now < s.penaltyUntilMs then s
  else if s.baseRps ≤ s.currentRps then s
  else if now - s.lastRecoveryAtMs < s.recoveryEveryMs then s
  else { s with
    currentRps := min s.baseRps (s.currentRps + s.recoveryStepRps)
    lastRecoveryAtMs := now }

/-- C9: `note429` sets `currentRps` to `max(minRps, currentRps·0.5)` — a
strict decrease whenever the rate is above the `minRps` floor, and never
below the floor; `noteSuccess` outside the penalty window, below `baseRps`
and after `recoveryEveryMs` since the last recovery sets `currentRps` to
`min(baseRps, currentRps + recoveryStepRps)` — a strict increase capped at
`baseRps`; `noteSuccess` during the penalty window changes nothing. -/
theorem rateLimiter_governor_spec (s : RateLimiterState) (now : ℚ)
    (hmin : 0 < s.minRps) :
    (note429 now s).currentRps = max s.minRps (s.currentRps * (1/2)) ∧
    s.minRps ≤ (note429 now s).currentRps ∧
    (s.minRps ≤ s.currentRps → (note429 now s).currentRps ≤ s.currentRps) ∧
    (s.minRps < s.currentRps → (note429 now s).currentRps < s.currentRps) ∧
    (now < s.penaltyUntilMs → noteSuccess now s = s) ∧
    (s.penaltyUntilMs ≤ now → s.currentRps < s.baseRps →
      s.recoveryEveryMs ≤ now - s.lastRecoveryAtMs →
      (noteSuccess now s).currentRps = min s.baseRps (s.currentRps + s.recoveryStepRps) ∧
      (noteSuccess now s).currentRps ≤ s.baseRps ∧
      (0 < s.recoveryStepRps → s.currentRps < (noteSuccess now s).currentRps)) := by
  refine ⟨rfl, le_max_left _ _, ?_, ?_, ?_, ?_⟩
  · intro h
    exact max_le h (by linarith)
  · intro h
    exact max_lt h (by linarith)
  · intro h
    unfold noteSuccess
    rw [if_pos h]
  · intro h1 h2 h3
    have hs : noteSuccess now s =
        { s with
          currentRps := min s.baseRps (s.currentRps + s.recoveryStepRps)
          lastRecoveryAtMs := now } := by
      unfold noteSuccess
      rw [if_neg (not_lt.mpr h1), if_neg (not_le.mpr h2), if_neg (not_lt.mpr h3)]
    rw [hs]
    refine ⟨rfl, min_le_left _ _, ?_⟩
    intro hstep
    exact lt_min h2 (by linarith)

/-- Witness for `rateLimiter_governor_spec`: `base = 8`, `min = 1`,
`current = 4`, `step = 1`, no penalty, `now = 100`: a 429 halves the rate to
`2`; a success recovers to `5`. -/
theorem rateLimiter_governor_spec_witness :
    (note429 100 ⟨8, 1, 4, 1000, 10, 1, 0, 0, 0, 0⟩).currentRps = 2 ∧
    (noteSuccess 100 ⟨8, 1, 4, 1000, 10, 1, 0, 0, 0, 0⟩).currentRps = 5 := by
  have h := rateLimiter_governor_spec ⟨8, 1, 4, 1000, 10, 1, 0, 0, 0, 0⟩ 100 (by norm_num)
  constructor
  · rw [h.1]; norm_num
  · rw [(h.2.2.2.2.2 (by norm_num) (by norm_num) (by norm_num)).1]; norm_num

/-! ### Bollinger execute-phase tick (src/unnamed/part_004:625-744) -/

/-- Embeds `candidateConservativeProfitPpm` (src/unnamed/part_004:66-75):
`(conservativeProfit * 1_000_000) / amountA` in truncating `BigInt` division,
undefined for `amountA ≤ 0` (the `Number()` conversion is exact in range). -/
def candidateConservativeProfitPpm (amountA conservativeProfit : ℤ) : Option ℤ :=
  if amountA ≤ 0 then none
  else some (Int.tdiv (conservativeProfit * 1000000) amountA)

/-- Mutable state of the bollinger execute loop
(src/unnamed/part_004:626-628): `armed`, `peakPpm`, `declineTicks`. -/
structure BollingerExecState where
  armed : Bool
  peakPpm : ℚ
  declineTicks : ℕ
  deriving Repr, DecidableEq

/-- What a single execute-loop iteration does: keep scanning (possibly
arming or resetting), fire the trailing-stop, or fire emergency-sigma (the
two `return await executeCandidate` sites, distinguished by their logged
`reason`). -/
inductive TickOutcome where
  | continueScan
  | fireTrailingStop
  | fireEmergencySigma
  deriving Repr, DecidableEq

/-- Embeds one iteration of the bollinger execute loop
(src/unnamed/part_004:630-744), with the scan abstracted to the data the
branch logic reads: `bestTick = none` when the scan has no best candidate or
its ppm is undefined, `some (ppm, profitable)` otherwise.  `upperBandPpm`,
`emaPpm`, `stdPpm`, `emergencySigma`, `dropPpm` and `lookback` are the
constants fixed before the loop.  Returns the tick's outcome and the updated
state. -/
def bollingerExecuteTick (upperBandPpm emaPpm stdPpm emergencySigma dropPpm : ℚ)
    (lookback : ℕ) (st : BollingerExecState) (bestTick : Option (ℚ × Bool)) :
    TickOutcome × BollingerExecState :=
  match bestTick with
  | none => (TickOutcome.continueScan, { armed := false, peakPpm := 0, declineTicks := 0 })
  | some (ppm, profitable) =>
    if profitable = false then
      (TickOutcome.continueScan, { armed := false, peakPpm := 0, declineTicks := 0 })
    else if st.armed = false then
      if upperBandPpm ≤ ppm then
        (TickOutcome.continueScan, { armed := true, peakPpm := ppm, declineTicks := 0 })
      else (TickOutcome.continueScan, st)
    else
      -- Armed branch.  The source performs the emergency-band check once,
      -- after the peak/trailing if/else-if chain, on every path that did not
      -- already return; it is inlined per path here.
      if st.peakPpm < ppm then
        if 0 < emergencySigma ∧ emaPpm + emergencySigma * stdPpm ≤ ppm then
          (TickOutcome.fireEmergencySigma, { st with peakPpm := ppm, declineTicks := 0 })
        else (TickOutcome.continueScan, { st with peakPpm := ppm, declineTicks := 0 })
      else if ppm < st.peakPpm ∧ dropPpm ≤ st.peakPpm - ppm then
        if lookback ≤ st.declineTicks + 1 then
          (TickOutcome.fireTrailingStop, { st with declineTicks := st.declineTicks + 1 })
        else
          if 0 < emergencySigma ∧ emaPpm + emergencySigma * stdPpm ≤ ppm then
            (TickOutcome.fireEmergencySigma, { st with declineTicks := st.declineTicks + 1 })
          else (TickOutcome.continueScan, { st with declineTicks := st.declineTicks + 1 })
      else
        if 0 < emergencySigma ∧ emaPpm + emergencySigma * stdPpm ≤ ppm then
          (TickOutcome.fireEmergencySigma, st)
        else (TickOutcome.continueScan, st)

/-- C7 counterexample: with `emergencySigma = 1 > 0`, `EMA = 0`, `σ = 10`
(emergency band `10`), upper band `30`, an execute tick whose best candidate
is profitable with ppm `20 ≥ 10` but with the strategy not yet armed does
NOT fire emergency-sigma (it does not even arm, since `20 < 30`) — contrary
to the claim that the execute phase fires without requiring arm. -/
theorem bollinger_emergency_unarmed_counterexample :
    (0 : ℚ) < 1 ∧
    (0 : ℚ) + 1 * 10 ≤ 20 ∧
    (bollingerExecuteTick 30 0 10 1 0 1 ⟨false, 0, 0⟩ (some (20, true))).1 ≠
      TickOutcome.fireEmergencySigma ∧
    (bollingerExecuteTick 30 0 10 1 0 1 ⟨false, 0, 0⟩ (some (20, true))).1 =
      TickOutcome.continueScan ∧
    (bollingerExecuteTick 30 0 10 1 0 1 ⟨false, 0, 0⟩ (some (20, true))).2.armed = false := by
  refine ⟨by norm_num, by norm_num, ?_, ?_, ?_⟩ <;> decide

/-- C7 (amended): in the bollinger execute phase the emergency-sigma branch
sits inside the armed branch: an unarmed tick never fires emergency-sigma,
whatever the scan produced; an armed tick with a profitable best candidate
whose ppm is `≥ EMA + emergencySigma·σ` (with `emergencySigma > 0`) fires
emergency-sigma provided the trailing-stop does not fire first on that same
tick. -/
theorem bollinger_emergency_requires_armed
    (upperBandPpm emaPpm stdPpm emergencySigma dropPpm : ℚ) (lookback : ℕ)
    (st : BollingerExecState) :
    (st.armed = false →
      ∀ bestTick,
        (bollingerExecuteTick upperBandPpm emaPpm stdPpm emergencySigma dropPpm lookback
            st bestTick).1 ≠ TickOutcome.fireEmergencySigma) ∧
    (∀ ppm : ℚ, st.armed = true → 0 < emergencySigma →
      emaPpm + emergencySigma * stdPpm ≤ ppm →
      ¬(ppm < st.peakPpm ∧ dropPpm ≤ st.peakPpm - ppm ∧ lookback ≤ st.declineTicks + 1) →
      (bollingerExecuteTick upperBandPpm emaPpm stdPpm emergencySigma dropPpm lookback
          st (some (ppm, true))).1 = TickOutcome.fireEmergencySigma) := by
  constructor
  · intro hunarmed bestTick
    match bestTick with
    | none => simp [bollingerExecuteTick]
    | some (ppm, profitable) =>
      cases profitable with
      | false => simp [bollingerExecuteTick]
      | true =>
        simp only [bollingerExecuteTick]
        rw [if_neg (by simp), if_pos hunarmed]
        split_ifs <;> simp
  · intro ppm harmed hsigma hband hnot
    simp only [bollingerExecuteTick]
    rw [if_neg (by simp), if_neg (by rw [harmed]; simp)]
    by_cases hpk : st.peakPpm < ppm
    · rw [if_pos hpk, if_pos ⟨hsigma, hband⟩]
    · rw [if_neg hpk]
      by_cases hdrop : ppm < st.peakPpm ∧ dropPpm ≤ st.peakPpm - ppm
      · rw [if_pos hdrop]
        have hlb : ¬ lookback ≤ st.declineTicks + 1 := fun h => hnot ⟨hdrop.1, hdrop.2, h⟩
        rw [if_neg hlb, if_pos ⟨hsigma, hband⟩]
      · rw [if_neg hdrop, if_pos ⟨hsigma, hband⟩]

/-- Witness for `bollinger_emergency_requires_armed`: an unarmed tick at
ppm `20` does not fire; an armed tick (peak `10`) at ppm `20` over band `10`
fires emergency-sigma. -/
theorem bollinger_emergency_requires_armed_witness :
    (bollingerExecuteTick 30 0 10 1 0 1 ⟨false, 0, 0⟩ (some (20, true))).1 ≠
      TickOutcome.fireEmergencySigma ∧
    (bollingerExecuteTick 30 0 10 1 0 1 ⟨true, 10, 0⟩ (some (20, true))).1 =
      TickOutcome.fireEmergencySigma := by
  have ha := (bollinger_emergency_requires_armed 30 0 10 1 0 1 ⟨false, 0, 0⟩).1 rfl
    (some (20, true))
  have hb := (bollinger_emergency_requires_armed 30 0 10 1 0 1 ⟨true, 10, 0⟩).2 20 rfl
    (by norm_num) (by norm_num) (by intro h; exact absurd h.1 (by norm_num))
  exact ⟨ha, hb⟩
end PrimeAggregator

namespace PrimeAggregator

/-! ### Atomic multi-leg instruction assembly (src/src/bot/atomic.ts) -/

/-- A transaction instruction as read by the dedup key: program id, opaque
instruction data, and the account-key list (pubkey, isSigner, isWritable).
Pubkeys and data bytes are abstracted to `ℕ`; `ixKey`'s base58/base64/`:`/`,`
string encoding of these parts is injective, so the tuple is an equivalent
key. -/
structure Ix where
  programId : ℕ
  data : ℕ
  keys : List (ℕ × Bool × Bool)
  deriving Repr, DecidableEq

/-- Embeds `ixKey` (src/src/bot/atomic.ts:39-44): the dedup key is the
`(programId, data, account keys)` triple. -/
def ixKey (ix : Ix) : ℕ × ℕ × List (ℕ × Bool × Bool) :=
  (ix.programId, ix.data, ix.keys)

/-- Loop of `uniqBy` (src/src/bot/atomic.ts:27-37) with its `seen` set made
explicit (the set of keys already emitted). -/
def uniqByAux {α κ : Type} [DecidableEq κ] (keyFn : α → κ) (seen : List κ) :
    List α → List α
  | [] => []
  | item :: rest =>
    if keyFn item ∈ seen then uniqByAux keyFn seen rest
    else item :: uniqByAux keyFn (keyFn item :: seen) rest

/-- Embeds `uniqBy` (src/src/bot/atomic.ts:27-37): keep the first item of
each key, preserving order. -/
def uniqBy {α κ : Type} [DecidableEq κ] (keyFn : α → κ) (items : List α) : List α :=
  uniqByAux keyFn [] items

/-- Per-leg instruction bundle returned by `collectIxBundle`
(src/src/bot/atomic.ts:46-55): other/computeBudget/setup instructions, the
swap instruction, and the optional cleanup instruction. -/
structure IxBundle where
  other : List Ix
  computeBudget : List Ix
  setup : List Ix
  swap : Ix
  cleanup : Option Ix
  deriving Repr, DecidableEq

/-- Embeds the compute-budget normalization
(src/src/bot/atomic.ts:106-118): Jupiter's per-leg compute-budget
instructions are ignored; one set-limit instruction is always emitted and a
set-price instruction exactly when `computeUnitPriceMicroLamports > 0`.
`setLimitIx`/`setPriceIx` stand for the two `ComputeBudgetProgram`
instructions. -/
def computeBudgetIxs (computeUnitPriceMicroLamports : ℤ) (setLimitIx setPriceIx : Ix) :
    List Ix :=
  [setLimitIx] ++ (if computeUnitPriceMicroLamports > 0 then [setPriceIx] else [])

/-- Embeds the instruction assembly of `buildAtomicLoopTransaction`
(src/src/bot/atomic.ts:109-147): compute budget, then leg-1 "other" only
(leg-2's dropped), then setup of both legs deduplicated by `ixKey`, then the
two swaps in path order, then the deduplicated cleanups, then the optional
tip transfer last (`tip` is present iff `jitoTipLamports > 0` and a tip
account is configured). -/
def buildAtomicLoopInstructions (computeUnitPriceMicroLamports : ℤ)
    (setLimitIx setPriceIx : Ix) (b1 b2 : IxBundle) (tip : Option Ix) : List Ix :=
  computeBudgetIxs computeUnitPriceMicroLamports setLimitIx setPriceIx ++
    b1.other ++
    uniqBy ixKey (b1.setup ++ b2.setup) ++
    [b1.swap, b2.swap] ++
    uniqBy ixKey (([b1.cleanup, b2.cleanup]).filterMap id) ++
    tip.toList

/-- Modelled from the spec: `buildAtomicPathTransaction`, the 2-or-3-leg
builder the executor imports from './atomic.js', is not among the source
files; per the spec it generalizes `buildAtomicLoopTransaction` to a list of
legs — compute-budget normalization, leg-1 "other" only (leg-2/leg-3's
discarded), deduplicated setup over all legs, each leg's swap in path order,
deduplicated cleanup, optional tip last.  For two legs it coincides with the
source's `buildAtomicLoopInstructions` (proved below). -/
def buildAtomicPathInstructions (computeUnitPriceMicroLamports : ℤ)
    (setLimitIx setPriceIx : Ix) (leg1 : IxBundle) (restLegs : List IxBundle)
    (tip : Option Ix) : List Ix :=
  computeBudgetIxs computeUnitPriceMicroLamports setLimitIx setPriceIx ++
    leg1.other ++
    uniqBy ixKey (((leg1 :: restLegs).map IxBundle.setup).flatten) ++
    (leg1 :: restLegs).map IxBundle.swap ++
    uniqBy ixKey ((leg1 :: restLegs).filterMap IxBundle.cleanup) ++
    tip.toList

theorem uniqByAux_map_key_nodup {α κ : Type} [DecidableEq κ] (keyFn : α → κ) :
    ∀ (l : List α) (seen : List κ),
      ((uniqByAux keyFn seen l).map keyFn).Nodup ∧
      ∀ k ∈ (uniqByAux keyFn seen l).map keyFn, k ∉ seen := by
  intro l
  induction l with
  | nil =>
    intro seen
    refine ⟨List.nodup_nil, ?_⟩
    intro k hk
    simp [uniqByAux] at hk
  | cons item rest ih =>
    intro seen
    by_cases hmem : keyFn item ∈ seen
    · have hstep : uniqByAux keyFn seen (item :: rest) = uniqByAux keyFn seen rest := by
        simp only [uniqByAux]
        rw [if_pos hmem]
      rw [hstep]
      exact ih seen
    · have hstep : uniqByAux keyFn seen (item :: rest) =
          item :: uniqByAux keyFn (keyFn item :: seen) rest := by
        simp only [uniqByAux]
        rw [if_neg hmem]
      rw [hstep]
      obtain ⟨ihN, ihS⟩ := ih (keyFn item :: seen)
      constructor
      · rw [List.map_cons, List.nodup_cons]
        exact ⟨fun hk => (ihS _ hk) (List.mem_cons_self _ _), ihN⟩
      · intro k hk
        rw [List.map_cons, List.mem_cons] at hk
        rcases hk with h | h
        · subst h; exact hmem
        · intro hks
          exact (ihS k h) (List.mem_cons_of_mem _ hks)

theorem uniqBy_map_key_nodup {α κ : Type} [DecidableEq κ] (keyFn : α → κ) (l : List α) :
    ((uniqBy keyFn l).map keyFn).Nodup :=
  (uniqByAux_map_key_nodup keyFn l []).1

/-- C5: the built instruction list is, in strict order: the compute-budget
instructions (one set-limit, plus one set-price iff `cuPrice > 0`, so length
`≤ 2`), then leg-1's "other" instructions only, then the setup instructions
of all legs deduplicated by `(programId, data, keys)`, then each leg's swap
in path order, then the deduplicated cleanups, then the tip last when
present; no duplicate key occurs within the setup segment or within the
cleanup segment; and the two-leg source builder agrees with the general
path builder. -/
theorem buildAtomic_instruction_order (computeUnitPriceMicroLamports : ℤ)
    (setLimitIx setPriceIx : Ix) (leg1 : IxBundle) (restLegs : List IxBundle)
    (tip : Option Ix) :
    (∀ b2 : IxBundle,
      buildAtomicLoopInstructions computeUnitPriceMicroLamports setLimitIx setPriceIx
          leg1 b2 tip =
        buildAtomicPathInstructions computeUnitPriceMicroLamports setLimitIx setPriceIx
          leg1 [b2] tip) ∧
    buildAtomicPathInstructions computeUnitPriceMicroLamports setLimitIx setPriceIx
        leg1 restLegs tip =
      computeBudgetIxs computeUnitPriceMicroLamports setLimitIx setPriceIx ++
        leg1.other ++
        uniqBy ixKey (((leg1 :: restLegs).map IxBundle.setup).flatten) ++
        (leg1 :: restLegs).map IxBundle.swap ++
        uniqBy ixKey ((leg1 :: restLegs).filterMap IxBundle.cleanup) ++
        tip.toList ∧
    (computeBudgetIxs computeUnitPriceMicroLamports setLimitIx setPriceIx).length =
      (if 0 < computeUnitPriceMicroLamports then 2 else 1) ∧
    ((uniqBy ixKey (((leg1 :: restLegs).map IxBundle.setup).flatten)).map ixKey).Nodup ∧
    ((uniqBy ixKey ((leg1 :: restLegs).filterMap IxBundle.cleanup)).map ixKey).Nodup ∧
    ∀ t, tip = some t →
      (buildAtomicPathInstructions computeUnitPriceMicroLamports setLimitIx setPriceIx
          leg1 restLegs tip).getLast? = some t := by
  refine ⟨?_, rfl, ?_, uniqBy_map_key_nodup _ _, uniqBy_map_key_nodup _ _, ?_⟩
  · intro b2
    unfold buildAtomicLoopInstructions buildAtomicPathInstructions
    cases hc1 : leg1.cleanup <;> cases hc2 : b2.cleanup <;>
      simp [List.flatten, List.filterMap_cons, hc1, hc2]
  · unfold computeBudgetIxs
    split_ifs <;> simp
  · intro t ht
    subst ht
    unfold buildAtomicPathInstructions
    simp only [Option.toList_some, ← List.append_assoc]
    rw [List.getLast?_concat]


/-- Witness for `buildAtomic_instruction_order` on a concrete two-leg build
with `cuPrice = 5 > 0`, overlapping setups (one duplicate removed),
identical cleanups (deduplicated to one) and a tip: the output is exactly
compute-budget, leg-1 other, deduped setup, swaps, deduped cleanup, tip. -/
theorem buildAtomic_instruction_order_witness :
    buildAtomicPathInstructions 5 ⟨0, 1, []⟩ ⟨0, 2, []⟩
        ⟨[⟨5, 5, []⟩], [], [⟨1, 1, []⟩, ⟨1, 2, []⟩], ⟨2, 1, []⟩, some ⟨3, 1, []⟩⟩
        [⟨[⟨6, 6, []⟩], [], [⟨1, 1, []⟩], ⟨2, 2, []⟩, some ⟨3, 1, []⟩⟩]
        (some ⟨4, 1, []⟩) =
      [⟨0, 1, []⟩, ⟨0, 2, []⟩, ⟨5, 5, []⟩, ⟨1, 1, []⟩, ⟨1, 2, []⟩, ⟨2, 1, []⟩,
        ⟨2, 2, []⟩, ⟨3, 1, []⟩, ⟨4, 1, []⟩] ∧
    (buildAtomicPathInstructions 5 ⟨0, 1, []⟩ ⟨0, 2, []⟩
        ⟨[⟨5, 5, []⟩], [], [⟨1, 1, []⟩, ⟨1, 2, []⟩], ⟨2, 1, []⟩, some ⟨3, 1, []⟩⟩
        [⟨[⟨6, 6, []⟩], [], [⟨1, 1, []⟩], ⟨2, 2, []⟩, some ⟨3, 1, []⟩⟩]
        (some ⟨4, 1, []⟩)).getLast? = some ⟨4, 1, []⟩ ∧
    buildAtomicLoopInstructions 5 ⟨0, 1, []⟩ ⟨0, 2, []⟩
        ⟨[⟨5, 5, []⟩], [], [⟨1, 1, []⟩, ⟨1, 2, []⟩], ⟨2, 1, []⟩, some ⟨3, 1, []⟩⟩
        ⟨[⟨6, 6, []⟩], [], [⟨1, 1, []⟩], ⟨2, 2, []⟩, some ⟨3, 1, []⟩⟩
        (some ⟨4, 1, []⟩) =
      buildAtomicPathInstructions 5 ⟨0, 1, []⟩ ⟨0, 2, []⟩
        ⟨[⟨5, 5, []⟩], [], [⟨1, 1, []⟩, ⟨1, 2, []⟩], ⟨2, 1, []⟩, some ⟨3, 1, []⟩⟩
        [⟨[⟨6, 6, []⟩], [], [⟨1, 1, []⟩], ⟨2, 2, []⟩, some ⟨3, 1, []⟩⟩]
        (some ⟨4, 1, []⟩) := by
  have h := buildAtomic_instruction_order 5 ⟨0, 1, []⟩ ⟨0, 2, []⟩
    ⟨[⟨5, 5, []⟩], [], [⟨1, 1, []⟩, ⟨1, 2, []⟩], ⟨2, 1, []⟩, some ⟨3, 1, []⟩⟩
    [⟨[⟨6, 6, []⟩], [], [⟨1, 1, []⟩], ⟨2, 2, []⟩, some ⟨3, 1, []⟩⟩]
    (some ⟨4, 1, []⟩)
  exact ⟨by decide, h.2.2.2.2.2 ⟨4, 1, []⟩ rfl,
    h.1 ⟨[⟨6, 6, []⟩], [], [⟨1, 1, []⟩], ⟨2, 2, []⟩, some ⟨3, 1, []⟩⟩⟩

end PrimeAggregator
